import Mathlib

/-!
Shallow embedding of `heredity.py`: exact Bayesian-network inference over a
pedigree.  Probabilities are modelled as exact rationals (`ℚ`); Python sets of
names become `Finset String`; the Python dicts keyed by person become lists of
records (for the pedigree) and functions `String → Dist` (for the per-person
accumulators).  Each definition mirrors the corresponding Python function.
-/

namespace Heredity

/-- One row of the dataset produced by `load_data`: a person's name, the
optional names of mother and father, and the optional observed trait. -/
structure Person where
  name : String
  mother : Option String
  father : Option String
  trait : Option Bool
deriving DecidableEq

/-- `PROBS["mutation"]` : the mutation probability 0.01. -/
def mutation : ℚ := 1/100

/-- `PROBS["gene"]` : the unconditional gene-count prior. -/
def geneProb (g : ℕ) : ℚ :=
  if g = 2 then 1/100 else if g = 1 then 3/100 else 96/100

/-- `PROBS["trait"]` : probability of the trait value given the gene count. -/
def traitProb (g : ℕ) (t : Bool) : ℚ :=
  if g = 2 then (if t then 65/100 else 35/100)
  else if g = 1 then (if t then 56/100 else 44/100)
  else (if t then 1/100 else 99/100)

/-- Membership of an optional name in a set of names; Python's `x in s` where
`x` may be `None` (`None in s` is `False` for a set of strings). -/
def optMem (s : Finset String) (x : Option String) : Bool :=
  match x with
  | none => false
  | some a => decide (a ∈ s)

/-- `2 if x in two_genes else 1 if x in one_gene else 0` — the gene count a
hypothesis assigns to a (possibly absent) name. -/
def geneCountOf (one_gene two_genes : Finset String) (x : Option String) : ℕ :=
  if optMem two_genes x then 2 else if optMem one_gene x then 1 else 0

/-- `g / 2 if g > 0 else 0.01` : the code's base probability that a parent with
gene count `g` passes the gene on (before the mutation adjustment). -/
def probGeneFrom (g : ℕ) : ℚ :=
  if g > 0 then (g : ℚ) / 2 else 1/100

/-- `1 - (g / 2) if g > 0 else 0.99` : the code's base probability that a
parent with gene count `g` does not pass the gene on. -/
def probNoGeneFrom (g : ℕ) : ℚ :=
  if g > 0 then 1 - (g : ℚ) / 2 else 99/100

/-- The code's `# Apply mutation probability` step:
`x = (1 - PROBS["mutation"]) if x > 0.5 else PROBS["mutation"]`. -/
def applyMutation (q : ℚ) : ℚ :=
  if q > 1/2 then 1 - mutation else mutation

/-- The gene-count factor of one person inside `joint_probability`: the prior
if the person has no recorded parents, otherwise the code's inheritance rule
built from the parents' gene counts under the hypothesis. -/
def personGeneProb (info : Person) (one_gene two_genes : Finset String) : ℚ :=
  let gc := geneCountOf one_gene two_genes (some info.name)
  if info.mother = none ∧ info.father = none then
    geneProb gc
  else
    let mhg := geneCountOf one_gene two_genes info.mother
    let fhg := geneCountOf one_gene two_genes info.father
    if gc = 0 then
      applyMutation (probNoGeneFrom mhg) * applyMutation (probNoGeneFrom fhg)
    else if gc = 1 then
      applyMutation (probGeneFrom mhg) * applyMutation (probNoGeneFrom fhg) +
        applyMutation (probGeneFrom fhg) * applyMutation (probNoGeneFrom mhg)
    else
      applyMutation (probGeneFrom mhg) * applyMutation (probGeneFrom fhg)

/-- One person's full factor inside `joint_probability`: the gene-count factor
times `PROBS["trait"][gene_copies][has_trait]`. -/
def personProb (info : Person) (one_gene two_genes have_trait : Finset String) : ℚ :=
  personGeneProb info one_gene two_genes *
    traitProb (geneCountOf one_gene two_genes (some info.name))
      (decide (info.name ∈ have_trait))

/-- `joint_probability(people, one_gene, two_genes, have_trait)` : the product
over all persons of their individual factors, accumulated as in the loop
`joint_prob *= person_prob` starting from `1.0`. -/
def joint_probability (people : List Person)
    (one_gene two_genes have_trait : Finset String) : ℚ :=
  people.foldl (fun acc info => acc * personProb info one_gene two_genes have_trait) 1

/-- One person's accumulator: the three `"gene"` cells and two `"trait"`
cells of the `probabilities` dict. -/
structure Dist where
  gene0 : ℚ
  gene1 : ℚ
  gene2 : ℚ
  traitT : ℚ
  traitF : ℚ
deriving DecidableEq

/-- The initial accumulator: every cell `0`. -/
def initDist : Dist := ⟨0, 0, 0, 0, 0⟩

/-- Sum of the three gene cells. -/
def Dist.geneSum (d : Dist) : ℚ := d.gene0 + d.gene1 + d.gene2

/-- Sum of the two trait cells. -/
def Dist.traitSum (d : Dist) : ℚ := d.traitT + d.traitF

/-- The body of `update` for one person: add `p` to the gene cell selected by
the hypothesis and to the trait cell selected by `have_trait`. -/
def updatePerson (one_gene two_genes have_trait : Finset String) (p : ℚ)
    (nm : String) (d : Dist) : Dist :=
  let d1 : Dist :=
    if nm ∈ two_genes then ⟨d.gene0, d.gene1, d.gene2 + p, d.traitT, d.traitF⟩
    else if nm ∈ one_gene then ⟨d.gene0, d.gene1 + p, d.gene2, d.traitT, d.traitF⟩
    else ⟨d.gene0 + p, d.gene1, d.gene2, d.traitT, d.traitF⟩
  if nm ∈ have_trait then ⟨d1.gene0, d1.gene1, d1.gene2, d1.traitT + p, d1.traitF⟩
  else ⟨d1.gene0, d1.gene1, d1.gene2, d1.traitT, d1.traitF + p⟩

/-- `update(probabilities, one_gene, two_genes, have_trait, p)` : every person
in the accumulator map gets `p` added to their selected gene and trait cells. -/
def update (one_gene two_genes have_trait : Finset String) (p : ℚ)
    (probs : String → Dist) : String → Dist :=
  fun nm => updatePerson one_gene two_genes have_trait p nm (probs nm)

/-- `powerset(s)` : all subsets of `s`, realised as in the Python code by
chaining the size-`r` combinations for `r = 0, …, len(s)` and converting each
combination to a set. -/
def powerset (l : List String) : List (Finset String) :=
  ((List.range (l.length + 1)).flatMap (fun r => List.sublistsLen r l)).map
    List.toFinset

/-- The two nested gene loops of `main`: every `one_gene` from
`powerset(names)` paired with every `two_genes` from
`powerset(names - one_gene)`. -/
def genePairs (l : List String) : List (Finset String × Finset String) :=
  (powerset l).flatMap (fun a =>
    (powerset (l.filter (fun x => x ∉ a))).map (fun b => (a, b)))

/-- The `fails_evidence` check of `main`: some person has a recorded trait
value different from their membership in the candidate `have_trait` set. -/
def failsEvidence (people : List Person) (have_trait : Finset String) : Bool :=
  people.any (fun info =>
    match info.trait with
    | none => false
    | some t => t != decide (info.name ∈ have_trait))

/-- All hypothesis triples `(one_gene, two_genes, have_trait)` visited by the
loops of `main`, with evidence-violating trait sets skipped. -/
def allHyps (people : List Person) (names : List String) :
    List (Finset String × Finset String × Finset String) :=
  ((powerset names).filter (fun ht => !failsEvidence people ht)).flatMap
    (fun ht => (genePairs names).map (fun ab => (ab.1, ab.2, ht)))

/-- One iteration of the accumulation loop of `main`: compute the joint
probability of the hypothesis and feed it to `update`. -/
def mainStep (people : List Person) (probs : String → Dist)
    (h : Finset String × Finset String × Finset String) : String → Dist :=
  update h.1 h.2.1 h.2.2 (joint_probability people h.1 h.2.1 h.2.2) probs

/-- Accumulation over an explicit list of hypothesis triples, starting from
the all-zero accumulators. -/
def runHypList (people : List Person)
    (hyps : List (Finset String × Finset String × Finset String)) :
    String → Dist :=
  hyps.foldl (mainStep people) (fun _ => initDist)

/-- The whole accumulation phase of `main`. -/
def runAll (people : List Person) (names : List String) : String → Dist :=
  runHypList people (allHyps people names)

/-- `normalize` for a single person's accumulator: divide the gene cells by
their sum when that sum is positive, then the trait cells by their sum when
that sum is positive. -/
def normalizeDist (d : Dist) : Dist :=
  let gs := d.gene0 + d.gene1 + d.gene2
  let d1 : Dist :=
    if gs > 0 then ⟨d.gene0 / gs, d.gene1 / gs, d.gene2 / gs, d.traitT, d.traitF⟩
    else d
  let ts := d1.traitT + d1.traitF
  if ts > 0 then ⟨d1.gene0, d1.gene1, d1.gene2, d1.traitT / ts, d1.traitF / ts⟩
  else d1

/-- `normalize(probabilities)` applied pointwise over persons. -/
def normalize (probs : String → Dist) : String → Dist :=
  fun nm => normalizeDist (probs nm)

/-- Modelled from the spec: the parent-transmission probability of §4.1,
`base*(1-m) + (1-base)*m` with `base = g/2`.  This is the specification's
model, stated separately so it can be compared with the code's factors. -/
def transmit (g : ℕ) : ℚ :=
  ((g : ℚ) / 2) * (1 - mutation) + (1 - (g : ℚ) / 2) * mutation

/-- Modelled from the spec: the §4.2 gene-count factor for a child with
recorded parents whose gene counts are `mg` and `fg`, for each assigned child
gene count. -/
def specGeneFactor (mg fg gc : ℕ) : ℚ :=
  if gc = 0 then (1 - transmit mg) * (1 - transmit fg)
  else if gc = 1 then
    transmit mg * (1 - transmit fg) + (1 - transmit mg) * transmit fg
  else transmit mg * transmit fg

/-! ### Basic bounds on the probability tables -/

lemma applyMutation_nonneg (q : ℚ) : 0 ≤ applyMutation q := by
  unfold applyMutation mutation; split_ifs <;> norm_num

lemma applyMutation_le_one (q : ℚ) : applyMutation q ≤ 1 := by
  unfold applyMutation mutation; split_ifs <;> norm_num

lemma geneProb_nonneg (g : ℕ) : 0 ≤ geneProb g := by
  unfold geneProb; split_ifs <;> norm_num

lemma geneProb_le_one (g : ℕ) : geneProb g ≤ 1 := by
  unfold geneProb; split_ifs <;> norm_num

lemma traitProb_nonneg (g : ℕ) (t : Bool) : 0 ≤ traitProb g t := by
  unfold traitProb; split_ifs <;> norm_num

lemma traitProb_le_one (g : ℕ) (t : Bool) : traitProb g t ≤ 1 := by
  unfold traitProb; split_ifs <;> norm_num

/-- The two snapped per-parent factors used in the one-gene case never sum to
more than `1`. -/
lemma applyMutation_pair_le_one (g : ℕ) :
    applyMutation (probGeneFrom g) + applyMutation (probNoGeneFrom g) ≤ 1 := by
  rcases g with _ | _ | g
  · norm_num [applyMutation, probGeneFrom, probNoGeneFrom, mutation]
  · norm_num [applyMutation, probGeneFrom, probNoGeneFrom, mutation]
  · have h1 : probGeneFrom (g + 1 + 1) > 1/2 := by
      unfold probGeneFrom
      rw [if_pos (by omega)]
      push_cast
      linarith [Nat.cast_nonneg (α := ℚ) g]
    have h2 : ¬ probNoGeneFrom (g + 1 + 1) > 1/2 := by
      unfold probNoGeneFrom
      rw [if_pos (by omega)]
      push_cast
      intro h
      linarith [Nat.cast_nonneg (α := ℚ) g]
    unfold applyMutation mutation
    rw [if_pos h1, if_neg h2]
    norm_num

lemma personGeneProb_nonneg (info : Person) (one_gene two_genes : Finset String) :
    0 ≤ personGeneProb info one_gene two_genes := by
  simp only [personGeneProb]
  split_ifs
  · exact geneProb_nonneg _
  · exact mul_nonneg (applyMutation_nonneg _) (applyMutation_nonneg _)
  · exact add_nonneg (mul_nonneg (applyMutation_nonneg _) (applyMutation_nonneg _))
      (mul_nonneg (applyMutation_nonneg _) (applyMutation_nonneg _))
  · exact mul_nonneg (applyMutation_nonneg _) (applyMutation_nonneg _)

lemma personGeneProb_le_one (info : Person) (one_gene two_genes : Finset String) :
    personGeneProb info one_gene two_genes ≤ 1 := by
  simp only [personGeneProb]
  split_ifs
  · exact geneProb_le_one _
  · exact mul_le_one₀ (applyMutation_le_one _) (applyMutation_nonneg _)
      (applyMutation_le_one _)
  · have h1 := applyMutation_pair_le_one
      (geneCountOf one_gene two_genes info.mother)
    have h2 := applyMutation_pair_le_one
      (geneCountOf one_gene two_genes info.father)
    have h3 := applyMutation_nonneg
      (probGeneFrom (geneCountOf one_gene two_genes info.mother))
    have h4 := applyMutation_nonneg
      (probNoGeneFrom (geneCountOf one_gene two_genes info.mother))
    have h5 := applyMutation_nonneg
      (probGeneFrom (geneCountOf one_gene two_genes info.father))
    have h6 := applyMutation_nonneg
      (probNoGeneFrom (geneCountOf one_gene two_genes info.father))
    nlinarith
  · exact mul_le_one₀ (applyMutation_le_one _) (applyMutation_nonneg _)
      (applyMutation_le_one _)

lemma personProb_nonneg (info : Person) (og tg ht : Finset String) :
    0 ≤ personProb info og tg ht :=
  mul_nonneg (personGeneProb_nonneg _ _ _) (traitProb_nonneg _ _)

lemma personProb_le_one (info : Person) (og tg ht : Finset String) :
    personProb info og tg ht ≤ 1 :=
  mul_le_one₀ (personGeneProb_le_one _ _ _) (traitProb_nonneg _ _)
    (traitProb_le_one _ _)

/-- The multiplicative accumulation loop keeps the running product inside
`[0, 1]`. -/
lemma foldl_personProb_bounds (og tg ht : Finset String) :
    ∀ (people : List Person) (acc : ℚ), 0 ≤ acc → acc ≤ 1 →
      0 ≤ people.foldl (fun a info => a * personProb info og tg ht) acc ∧
        people.foldl (fun a info => a * personProb info og tg ht) acc ≤ 1 := by
  intro people
  induction people with
  | nil => intro acc h0 h1; exact ⟨h0, h1⟩
  | cons info rest ih =>
    intro acc h0 h1
    rw [List.foldl_cons]
    exact ih (acc * personProb info og tg ht)
      (mul_nonneg h0 (personProb_nonneg _ _ _ _))
      (mul_le_one₀ h1 (personProb_nonneg _ _ _ _) (personProb_le_one _ _ _ _))

/-- C2: for every pedigree and every hypothesis given by disjoint one-gene and
two-gene sets plus a trait set, `joint_probability` returns a single value
that is non-negative and at most `1`. -/
theorem joint_probability_unit_interval (people : List Person)
    (one_gene two_genes have_trait : Finset String)
    (hdisj : Disjoint one_gene two_genes) :
    0 ≤ joint_probability people one_gene two_genes have_trait ∧
      joint_probability people one_gene two_genes have_trait ≤ 1 := by
  unfold joint_probability
  exact foldl_personProb_bounds one_gene two_genes have_trait people 1
    (by norm_num) (by norm_num)

/-- Witness for C2 at a concrete pedigree and hypothesis. -/
theorem joint_probability_unit_interval_witness :
    Disjoint ({"A"} : Finset String) ({"B"} : Finset String) ∧
      (0 ≤ joint_probability [⟨"A", none, none, none⟩, ⟨"B", none, none, some true⟩]
          {"A"} {"B"} {"B"} ∧
        joint_probability [⟨"A", none, none, none⟩, ⟨"B", none, none, some true⟩]
          {"A"} {"B"} {"B"} ≤ 1) :=
  ⟨by decide, joint_probability_unit_interval _ _ _ _ (by decide)⟩

/-- C1 (code bug): under the hypothesis that mother `M` carries one gene copy
and father `F` carries none, the code's gene-count factor for a child with
zero copies is `0.0099`: the mutation step snaps the mother's `0.5`
no-transmission probability to `0.01`.  The specification's transmission model
gives `0.5 * 0.99 = 0.495` for the same configuration, with a one-gene parent
transmitting with probability exactly `0.5`. -/
theorem snapped_one_gene_parent_diverges_from_spec :
    personGeneProb ⟨"C", some "M", some "F", none⟩ {"M"} ∅ = 99/10000 ∧
      specGeneFactor 1 0 0 = (1/2) * (99/100) ∧
      transmit 1 = 1/2 ∧
      personGeneProb ⟨"C", some "M", some "F", none⟩ {"M"} ∅ ≠ specGeneFactor 1 0 0 := by
  refine ⟨?_, ?_, ?_, ?_⟩
  · norm_num +decide [personGeneProb, geneCountOf, optMem, applyMutation,
      probGeneFrom, probNoGeneFrom, mutation]
  · norm_num [specGeneFactor, transmit, mutation]
  · norm_num [transmit, mutation]
  · norm_num +decide [personGeneProb, geneCountOf, optMem, applyMutation,
      probGeneFrom, probNoGeneFrom, mutation, specGeneFactor, transmit]

/-- C7 (counterexample): for a dataset consisting of a single child whose
recorded mother `"M"` and father `"F"` are not individuals of the dataset,
`joint_probability` raises no structural error: it returns the ordinary value
`0.970299`, exactly the value obtained by treating each missing parent as a
parent assigned zero genes. -/
theorem dangling_parent_no_failure :
    joint_probability [⟨"C", some "M", some "F", none⟩] ∅ ∅ ∅ = 970299/1000000 := by
  norm_num +decide [joint_probability, personProb, personGeneProb, geneCountOf,
    optMem, applyMutation, probGeneFrom, probNoGeneFrom, mutation, traitProb]

/-- C7 (amended): the evaluator never looks a recorded parent up in the
dataset; a parent name that lies outside both gene sets — in particular any
name absent from the dataset, since the enumerated gene sets only contain
dataset names — is treated exactly like a parent assigned zero gene copies,
interchangeably with any other such name. -/
theorem dangling_parent_treated_as_zero_genes
    (c m f m2 f2 : String) (t : Option Bool) (one_gene two_genes : Finset String)
    (h1 : m ∉ one_gene) (h2 : m ∉ two_genes)
    (h3 : f ∉ one_gene) (h4 : f ∉ two_genes)
    (h5 : m2 ∉ one_gene) (h6 : m2 ∉ two_genes)
    (h7 : f2 ∉ one_gene) (h8 : f2 ∉ two_genes) :
    personGeneProb ⟨c, some m, some f, t⟩ one_gene two_genes =
      personGeneProb ⟨c, some m2, some f2, t⟩ one_gene two_genes := by
  simp only [personGeneProb, geneCountOf, optMem, h1, h2, h3, h4, h5, h6, h7, h8,
    decide_eq_true_eq, if_false, decide_False, Bool.false_eq_true, reduceCtorEq]

/-- Witness for the amended C7. -/
theorem dangling_parent_treated_as_zero_genes_witness :
    ("M" ∉ ({"C"} : Finset String) ∧ "X" ∉ ({"C"} : Finset String)) ∧
      personGeneProb ⟨"C", some "M", some "F", none⟩ {"C"} ∅ =
        personGeneProb ⟨"C", some "X", some "Y", none⟩ {"C"} ∅ :=
  ⟨⟨by decide, by decide⟩,
    dangling_parent_treated_as_zero_genes "C" "M" "F" "X" "Y" none {"C"} ∅
      (by decide) (by decide) (by decide) (by decide)
      (by decide) (by decide) (by decide) (by decide)⟩

/-- C8: when both recorded parents lie in the two-gene set, the child's
gene-count factor is exactly `0.01 * 0.01` for an assigned gene count of `0`
and exactly `0.99 * 0.99` for an assigned gene count of `2`. -/
theorem both_parents_two_genes_factor (cname mname fname : String)
    (t : Option Bool) (one_gene two_genes : Finset String)
    (hm : mname ∈ two_genes) (hf : fname ∈ two_genes) :
    (cname ∉ one_gene → cname ∉ two_genes →
      personGeneProb ⟨cname, some mname, some fname, t⟩ one_gene two_genes =
        (1/100) * (1/100)) ∧
    (cname ∈ two_genes →
      personGeneProb ⟨cname, some mname, some fname, t⟩ one_gene two_genes =
        (99/100) * (99/100)) := by
  constructor
  · intro hc1 hc2
    simp only [personGeneProb, geneCountOf, optMem, hm, hf, hc1, hc2,
      decide_True, decide_False, decide_eq_true_eq, if_true, if_false,
      reduceCtorEq, Bool.false_eq_true]
    norm_num [applyMutation, probNoGeneFrom, mutation]
  · intro hc
    simp only [personGeneProb, geneCountOf, optMem, hm, hf, hc,
      decide_True, decide_False, decide_eq_true_eq, if_true, if_false,
      reduceCtorEq, Bool.false_eq_true]
    norm_num [applyMutation, probGeneFrom, mutation]

/-- Witness for C8 at a concrete pedigree and hypothesis. -/
theorem both_parents_two_genes_factor_witness :
    ("M" ∈ ({"M", "F"} : Finset String) ∧ "F" ∈ ({"M", "F"} : Finset String) ∧
      "C" ∉ (∅ : Finset String) ∧ "C" ∉ ({"M", "F"} : Finset String)) ∧
      personGeneProb ⟨"C", some "M", some "F", none⟩ ∅ {"M", "F"} =
        (1/100) * (1/100) :=
  ⟨⟨by decide, by decide, by decide, by decide⟩,
    (both_parents_two_genes_factor "C" "M" "F" none ∅ {"M", "F"}
      (by decide) (by decide)).1 (by decide) (by decide)⟩

/-- C5: when both accumulated sums are strictly positive, `normalize` rescales
each of the two distributions to sum to exactly `1` (hence certainly within
`1e-9`), preserving the relative proportions: each normalized cell times the
old sum recovers the old cell. -/
theorem normalize_sums_to_one (probs : String → Dist) (nm : String)
    (hg : 0 < (probs nm).geneSum) (htr : 0 < (probs nm).traitSum) :
    ((normalize probs nm).geneSum = 1 ∧ (normalize probs nm).traitSum = 1) ∧
      ((normalize probs nm).gene0 * (probs nm).geneSum = (probs nm).gene0 ∧
        (normalize probs nm).gene1 * (probs nm).geneSum = (probs nm).gene1 ∧
        (normalize probs nm).gene2 * (probs nm).geneSum = (probs nm).gene2 ∧
        (normalize probs nm).traitT * (probs nm).traitSum = (probs nm).traitT ∧
        (normalize probs nm).traitF * (probs nm).traitSum = (probs nm).traitF) := by
  simp only [Dist.geneSum, Dist.traitSum] at hg htr
  simp only [normalize, normalizeDist, Dist.geneSum, Dist.traitSum]
  split_ifs with h1
  · have hgs : (probs nm).gene0 + (probs nm).gene1 + (probs nm).gene2 ≠ 0 :=
      ne_of_gt hg
    have hts : (probs nm).traitT + (probs nm).traitF ≠ 0 := ne_of_gt htr
    refine ⟨⟨?_, ?_⟩, ?_, ?_, ?_, ?_, ?_⟩ <;> dsimp only <;>
      first
        | (rw [div_add_div_same, div_add_div_same]; exact div_self hgs)
        | (rw [div_add_div_same]; exact div_self hts)
        | exact div_mul_cancel₀ _ hgs
        | exact div_mul_cancel₀ _ hts
  · exact absurd hg h1

/-- Witness for C5 at a concrete accumulator. -/
theorem normalize_sums_to_one_witness :
    (0 < ((fun _ : String => (⟨1, 2, 3, 4, 5⟩ : Dist)) "A").geneSum ∧
        0 < ((fun _ : String => (⟨1, 2, 3, 4, 5⟩ : Dist)) "A").traitSum) ∧
      ((normalize (fun _ : String => (⟨1, 2, 3, 4, 5⟩ : Dist)) "A").geneSum = 1 ∧
        (normalize (fun _ : String => (⟨1, 2, 3, 4, 5⟩ : Dist)) "A").traitSum = 1) ∧
      ((normalize (fun _ : String => (⟨1, 2, 3, 4, 5⟩ : Dist)) "A").gene0 *
            ((fun _ : String => (⟨1, 2, 3, 4, 5⟩ : Dist)) "A").geneSum =
          ((fun _ : String => (⟨1, 2, 3, 4, 5⟩ : Dist)) "A").gene0 ∧
        (normalize (fun _ : String => (⟨1, 2, 3, 4, 5⟩ : Dist)) "A").gene1 *
            ((fun _ : String => (⟨1, 2, 3, 4, 5⟩ : Dist)) "A").geneSum =
          ((fun _ : String => (⟨1, 2, 3, 4, 5⟩ : Dist)) "A").gene1 ∧
        (normalize (fun _ : String => (⟨1, 2, 3, 4, 5⟩ : Dist)) "A").gene2 *
            ((fun _ : String => (⟨1, 2, 3, 4, 5⟩ : Dist)) "A").geneSum =
          ((fun _ : String => (⟨1, 2, 3, 4, 5⟩ : Dist)) "A").gene2 ∧
        (normalize (fun _ : String => (⟨1, 2, 3, 4, 5⟩ : Dist)) "A").traitT *
            ((fun _ : String => (⟨1, 2, 3, 4, 5⟩ : Dist)) "A").traitSum =
          ((fun _ : String => (⟨1, 2, 3, 4, 5⟩ : Dist)) "A").traitT ∧
        (normalize (fun _ : String => (⟨1, 2, 3, 4, 5⟩ : Dist)) "A").traitF *
            ((fun _ : String => (⟨1, 2, 3, 4, 5⟩ : Dist)) "A").traitSum =
          ((fun _ : String => (⟨1, 2, 3, 4, 5⟩ : Dist)) "A").traitF) :=
  ⟨⟨by norm_num [Dist.geneSum], by norm_num [Dist.traitSum]⟩,
    normalize_sums_to_one (fun _ => ⟨1, 2, 3, 4, 5⟩) "A"
      (by norm_num [Dist.geneSum]) (by norm_num [Dist.traitSum])⟩

/-- C6: a zero gene-cell sum leaves the three gene cells untouched, and a zero
trait-cell sum leaves the two trait cells untouched, each independently of
the other distribution, so `normalize` never divides by zero. -/
theorem normalize_skips_zero_sum (d : Dist) :
    (d.geneSum = 0 →
      (normalizeDist d).gene0 = d.gene0 ∧ (normalizeDist d).gene1 = d.gene1 ∧
        (normalizeDist d).gene2 = d.gene2) ∧
    (d.traitSum = 0 →
      (normalizeDist d).traitT = d.traitT ∧ (normalizeDist d).traitF = d.traitF) := by
  simp only [Dist.geneSum, Dist.traitSum, normalizeDist]
  split_ifs with h1 h2 h3
  · dsimp only at h2
    exact ⟨fun hgz => by exfalso; linarith, fun htz => by exfalso; linarith⟩
  · exact ⟨fun hgz => by exfalso; linarith, fun htz => ⟨rfl, rfl⟩⟩
  · exact ⟨fun hgz => ⟨rfl, rfl, rfl⟩, fun htz => by exfalso; linarith⟩
  · exact ⟨fun hgz => ⟨rfl, rfl, rfl⟩, fun htz => ⟨rfl, rfl⟩⟩

/-- Witness for C6: a gene distribution with zero sum is left unchanged even
while the trait distribution of the same person is normalized. -/
theorem normalize_skips_zero_sum_witness :
    (⟨0, 0, 0, 3, 1⟩ : Dist).geneSum = 0 ∧
      ((normalizeDist ⟨0, 0, 0, 3, 1⟩).gene0 = (⟨0, 0, 0, 3, 1⟩ : Dist).gene0 ∧
        (normalizeDist ⟨0, 0, 0, 3, 1⟩).gene1 = (⟨0, 0, 0, 3, 1⟩ : Dist).gene1 ∧
        (normalizeDist ⟨0, 0, 0, 3, 1⟩).gene2 = (⟨0, 0, 0, 3, 1⟩ : Dist).gene2) :=
  ⟨by norm_num [Dist.geneSum],
    (normalize_skips_zero_sum ⟨0, 0, 0, 3, 1⟩).1 (by norm_num [Dist.geneSum])⟩

/-- `update` adds `p` to both of a person's cell sums. -/
lemma updatePerson_sums (og tg ht : Finset String) (p : ℚ) (nm : String)
    (d : Dist) :
    (updatePerson og tg ht p nm d).geneSum = d.geneSum + p ∧
      (updatePerson og tg ht p nm d).traitSum = d.traitSum + p := by
  unfold updatePerson Dist.geneSum Dist.traitSum
  split_ifs <;> dsimp only <;> constructor <;> ring

/-- Accumulation preserves equality of a person's gene-cell and trait-cell
sums, whatever the starting accumulator map. -/
lemma runHypList_balanced (people : List Person)
    (hyps : List (Finset String × Finset String × Finset String)) :
    ∀ (probs : String → Dist) (nm : String),
      (probs nm).geneSum = (probs nm).traitSum →
      ((hyps.foldl (mainStep people) probs) nm).geneSum =
        ((hyps.foldl (mainStep people) probs) nm).traitSum := by
  induction hyps with
  | nil => intro probs nm h; exact h
  | cons h t ih =>
    intro probs nm hbal
    rw [List.foldl_cons]
    refine ih _ nm ?_
    show ((mainStep people probs h) nm).geneSum = ((mainStep people probs h) nm).traitSum
    simp only [mainStep, update]
    have hsum := updatePerson_sums h.1 h.2.1 h.2.2
      (joint_probability people h.1 h.2.1 h.2.2) nm (probs nm)
    rw [hsum.1, hsum.2, hbal]

/-- C10: each call to `update` adds `p` to exactly one gene cell and exactly
one trait cell of a person, leaving the other cells unchanged; consequently,
after any accumulation run, a person's gene cells and trait cells have equal
sums. -/
theorem update_one_gene_one_trait_cell
    (one_gene two_genes have_trait : Finset String) (p : ℚ)
    (probs : String → Dist) (nm : String) (people : List Person)
    (hyps : List (Finset String × Finset String × Finset String)) :
    (let u := update one_gene two_genes have_trait p probs nm
     let d := probs nm
     ((u.gene2 = d.gene2 + p ∧ u.gene1 = d.gene1 ∧ u.gene0 = d.gene0) ∨
       (u.gene1 = d.gene1 + p ∧ u.gene0 = d.gene0 ∧ u.gene2 = d.gene2) ∨
       (u.gene0 = d.gene0 + p ∧ u.gene1 = d.gene1 ∧ u.gene2 = d.gene2)) ∧
     ((u.traitT = d.traitT + p ∧ u.traitF = d.traitF) ∨
       (u.traitF = d.traitF + p ∧ u.traitT = d.traitT)) ∧
     u.geneSum = d.geneSum + p ∧ u.traitSum = d.traitSum + p) ∧
    (runHypList people hyps nm).geneSum = (runHypList people hyps nm).traitSum := by
  constructor
  · refine ⟨?_, ?_, (updatePerson_sums _ _ _ _ _ _).1, (updatePerson_sums _ _ _ _ _ _).2⟩
    · simp only [update, updatePerson]
      split_ifs <;> dsimp only <;> tauto
    · simp only [update, updatePerson]
      split_ifs <;> dsimp only <;> tauto
  · exact runHypList_balanced people hyps _ nm
      (by norm_num [initDist, Dist.geneSum, Dist.traitSum])

/-- C9: the full pipeline on the pedigree consisting of the single individual
`"A"` with no parents and no observed trait yields the prior gene posterior
`{0: 0.96, 1: 0.03, 2: 0.01}`, trait-present mass
`0.96*0.01 + 0.03*0.56 + 0.01*0.65 = 0.0329` and trait-absent mass
`0.96*0.99 + 0.03*0.44 + 0.01*0.35 = 0.9671`, each distribution summing
to `1`. -/
theorem single_individual_pipeline :
    normalize (runAll [⟨"A", none, none, none⟩] ["A"]) "A" =
      ⟨96/100, 3/100, 1/100,
        (96/100) * (1/100) + (3/100) * (56/100) + (1/100) * (65/100),
        (96/100) * (99/100) + (3/100) * (44/100) + (1/100) * (35/100)⟩ := by
  have h : allHyps [⟨"A", none, none, none⟩] ["A"] =
      [(∅, ∅, ∅), (∅, {"A"}, ∅), ({"A"}, ∅, ∅),
        (∅, ∅, {"A"}), (∅, {"A"}, {"A"}), ({"A"}, ∅, {"A"})] := by decide
  have j1 : joint_probability [⟨"A", none, none, none⟩] ∅ ∅ ∅ = 9504/10000 := by
    norm_num +decide [joint_probability, personProb, personGeneProb, geneCountOf,
      optMem, geneProb, traitProb]
  have j2 : joint_probability [⟨"A", none, none, none⟩] ∅ {"A"} ∅ = 35/10000 := by
    norm_num +decide [joint_probability, personProb, personGeneProb, geneCountOf,
      optMem, geneProb, traitProb]
  have j3 : joint_probability [⟨"A", none, none, none⟩] {"A"} ∅ ∅ = 132/10000 := by
    norm_num +decide [joint_probability, personProb, personGeneProb, geneCountOf,
      optMem, geneProb, traitProb]
  have j4 : joint_probability [⟨"A", none, none, none⟩] ∅ ∅ {"A"} = 96/10000 := by
    norm_num +decide [joint_probability, personProb, personGeneProb, geneCountOf,
      optMem, geneProb, traitProb]
  have j5 : joint_probability [⟨"A", none, none, none⟩] ∅ {"A"} {"A"} = 65/10000 := by
    norm_num +decide [joint_probability, personProb, personGeneProb, geneCountOf,
      optMem, geneProb, traitProb]
  have j6 : joint_probability [⟨"A", none, none, none⟩] {"A"} ∅ {"A"} = 168/10000 := by
    norm_num +decide [joint_probability, personProb, personGeneProb, geneCountOf,
      optMem, geneProb, traitProb]
  rw [normalize, runAll, runHypList, h]
  simp only [List.foldl_cons, List.foldl_nil, mainStep, j1, j2, j3, j4, j5, j6]
  norm_num +decide [update, updatePerson, initDist, normalizeDist]

/-- The evidence filter accepts a candidate trait set exactly when it is
consistent with every recorded trait value. -/
lemma failsEvidence_eq_false_iff (people : List Person) (ht : Finset String) :
    failsEvidence people ht = false ↔
      ∀ q ∈ people, ∀ t : Bool, q.trait = some t →
        ((t = true → q.name ∈ ht) ∧ (t = false → q.name ∉ ht)) := by
  unfold failsEvidence
  rw [List.any_eq_false]
  constructor
  · intro hall q hq t htq
    have hthis := hall q hq
    simp only [htq, bne_iff_ne, ne_eq, not_not] at hthis
    cases t
    · exact ⟨fun hco => absurd hco (by simp), fun _ => by simpa using hthis.symm⟩
    · exact ⟨fun _ => by simpa using hthis.symm, fun hco => absurd hco (by simp)⟩
  · intro hall q hq
    rcases hqt : q.trait with _ | t
    · simp only [hqt]
      simp
    · have h2 := hall q hq t hqt
      simp only [hqt, bne_iff_ne, ne_eq, not_not]
      cases t
      · simp [h2.2 rfl]
      · simp [h2.1 rfl]

/-- If every visited hypothesis puts `nm` in its trait set, accumulation never
touches the trait-`False` cell of `nm`. -/
lemma foldl_traitF_frozen (people : List Person) (nm : String)
    (hyps : List (Finset String × Finset String × Finset String))
    (hall : ∀ h ∈ hyps, nm ∈ h.2.2) :
    ∀ probs : String → Dist,
      ((hyps.foldl (mainStep people) probs) nm).traitF = (probs nm).traitF := by
  induction hyps with
  | nil => intro probs; rfl
  | cons h t ih =>
    intro probs
    rw [List.foldl_cons]
    rw [ih (fun x hx => hall x (List.mem_cons_of_mem h hx))]
    have hmem : nm ∈ h.2.2 := hall h (List.mem_cons_self h t)
    show (updatePerson h.1 h.2.1 h.2.2 _ nm (probs nm)).traitF = (probs nm).traitF
    simp only [updatePerson, if_pos hmem]
    split_ifs <;> rfl

/-- If no visited hypothesis puts `nm` in its trait set, accumulation never
touches the trait-`True` cell of `nm`. -/
lemma foldl_traitT_frozen (people : List Person) (nm : String)
    (hyps : List (Finset String × Finset String × Finset String))
    (hall : ∀ h ∈ hyps, nm ∉ h.2.2) :
    ∀ probs : String → Dist,
      ((hyps.foldl (mainStep people) probs) nm).traitT = (probs nm).traitT := by
  induction hyps with
  | nil => intro probs; rfl
  | cons h t ih =>
    intro probs
    rw [List.foldl_cons]
    rw [ih (fun x hx => hall x (List.mem_cons_of_mem h hx))]
    have hmem : nm ∉ h.2.2 := hall h (List.mem_cons_self h t)
    show (updatePerson h.1 h.2.1 h.2.2 _ nm (probs nm)).traitT = (probs nm).traitT
    simp only [updatePerson, if_neg hmem]
    split_ifs <;> rfl

/-- Every hypothesis visited by the main loop has an evidence-consistent
trait set. -/
lemma mem_allHyps_consistent (people : List Person) (names : List String)
    (h : Finset String × Finset String × Finset String)
    (hh : h ∈ allHyps people names) : failsEvidence people h.2.2 = false := by
  simp only [allHyps, List.mem_flatMap, List.mem_map, List.mem_filter] at hh
  obtain ⟨ht, ⟨hht, hfail⟩, ab, hab, rfl⟩ := hh
  simpa using hfail

/-- C4: a candidate trait subset survives the evidence filter iff every
individual with observed trait `True` is in it and every individual with
observed trait `False` is not; consequently the accumulated mass in an
observed-`True` individual's trait-`False` cell is exactly zero, and
symmetrically for observed `False`. -/
theorem evidence_filter_correct (people : List Person) (names : List String)
    (info : Person) (hmem : info ∈ people) :
    (∀ ht : Finset String, failsEvidence people ht = false ↔
      ∀ q ∈ people, ∀ t : Bool, q.trait = some t →
        ((t = true → q.name ∈ ht) ∧ (t = false → q.name ∉ ht))) ∧
    (info.trait = some true → (runAll people names info.name).traitF = 0) ∧
    (info.trait = some false → (runAll people names info.name).traitT = 0) := by
  refine ⟨fun ht => failsEvidence_eq_false_iff people ht, fun htrait => ?_,
    fun htrait => ?_⟩
  · have hforall : ∀ h ∈ allHyps people names, info.name ∈ h.2.2 := fun h hh =>
      (((failsEvidence_eq_false_iff people h.2.2).mp
        (mem_allHyps_consistent people names h hh)) info hmem true htrait).1 rfl
    exact foldl_traitF_frozen people info.name (allHyps people names) hforall _
  · have hforall : ∀ h ∈ allHyps people names, info.name ∉ h.2.2 := fun h hh =>
      (((failsEvidence_eq_false_iff people h.2.2).mp
        (mem_allHyps_consistent people names h hh)) info hmem false htrait).2 rfl
    exact foldl_traitT_frozen people info.name (allHyps people names) hforall _

/-- Witness for C4 at a concrete one-person pedigree with observed trait. -/
theorem evidence_filter_correct_witness :
    ((⟨"A", none, none, some true⟩ : Person) ∈
        [(⟨"A", none, none, some true⟩ : Person)] ∧
      (⟨"A", none, none, some true⟩ : Person).trait = some true) ∧
      (runAll [⟨"A", none, none, some true⟩] ["A"] "A").traitF = 0 :=
  ⟨⟨by decide, rfl⟩,
    (evidence_filter_correct [⟨"A", none, none, some true⟩] ["A"]
      ⟨"A", none, none, some true⟩ (by decide)).2.1 rfl⟩

/-- `powerset` is a permutation of the sublists of `l`, each converted to a
set. -/
lemma powerset_perm (l : List String) :
    (powerset l).Perm ((List.sublists' l).map List.toFinset) :=
  (List.range_bind_sublistsLen_perm l).map List.toFinset

/-- Over a duplicate-free name list, converting the sublists to finite sets
hits every subset of the names exactly once. -/
lemma count_map_toFinset_sublists' (l : List String) (hl : l.Nodup)
    (S : Finset String) :
    ((List.sublists' l).map List.toFinset).count S =
      if S ⊆ l.toFinset then 1 else 0 := by
  induction l generalizing S with
  | nil =>
    simp only [List.sublists'_nil, List.map_cons, List.map_nil, List.toFinset_nil]
    by_cases h : S = (∅ : Finset String)
    · subst h
      simp [List.count_cons]
    · have h2 : (∅ : Finset String) ≠ S := fun hco => h hco.symm
      rw [if_neg (by simpa [Finset.subset_empty] using h)]
      simp [List.count_cons, List.count_nil, h2]
  | cons a t ih =>
    have ha : a ∉ t := (List.nodup_cons.mp hl).1
    have ht : t.Nodup := (List.nodup_cons.mp hl).2
    rw [List.sublists'_cons, List.map_append, List.count_append, List.map_map]
    have hcomp : (List.toFinset ∘ List.cons a) =
        (fun s : List String => insert a s.toFinset) := by
      funext s; simp [Function.comp]
    rw [hcomp]
    by_cases has : a ∈ S
    · have h1 : ¬ S ⊆ t.toFinset := by
        intro hsub
        exact ha (List.mem_toFinset.mp (hsub has))
      rw [ih ht S, if_neg h1]
      rw [List.count_eq_countP, List.countP_map]
      have hcongr : List.countP
            ((fun x => x == S) ∘ fun s : List String => insert a s.toFinset)
            (List.sublists' t) =
          List.countP (fun s : List String => s.toFinset == S.erase a)
            (List.sublists' t) := by
        apply List.countP_congr
        intro s hs
        have hsub : s.Sublist t := List.mem_sublists'.mp hs
        have hna : a ∉ s.toFinset := by
          intro hmem
          exact ha (hsub.subset (List.mem_toFinset.mp hmem))
        simp only [Function.comp, beq_iff_eq]
        constructor
        · intro hins
          rw [← hins, Finset.erase_insert hna]
        · intro herase
          rw [herase]
          exact Finset.insert_erase has
      rw [hcongr]
      have hback : List.countP (fun s : List String => s.toFinset == S.erase a)
          (List.sublists' t) =
          ((List.sublists' t).map List.toFinset).count (S.erase a) := by
        rw [List.count_eq_countP, List.countP_map]
        rfl
      rw [hback, ih ht (S.erase a)]
      simp [List.toFinset_cons, Finset.subset_insert_iff]
    · have hzero : List.countP
          ((fun x => x == S) ∘ fun s : List String => insert a s.toFinset)
          (List.sublists' t) = 0 := by
        apply List.countP_eq_zero.mpr
        intro s hs
        simp only [Function.comp, beq_iff_eq]
        intro hco
        rw [← hco] at has
        exact has (Finset.mem_insert_self a s.toFinset)
      rw [ih ht S, List.count_eq_countP, List.countP_map, hzero]
      simp [List.toFinset_cons, Finset.subset_insert_iff_of_not_mem has]

/-- `powerset` of a duplicate-free list contains each subset of its elements
exactly once and nothing else. -/
lemma count_powerset (l : List String) (hl : l.Nodup) (S : Finset String) :
    (powerset l).count S = if S ⊆ l.toFinset then 1 else 0 := by
  rw [(powerset_perm l).count_eq S]
  exact count_map_toFinset_sublists' l hl S

/-- Summing `c` over the occurrences of `A` in a list. -/
lemma sum_map_ite_count {α : Type} [DecidableEq α] (l : List α) (A : α) (c : ℕ) :
    (l.map (fun a => if a = A then c else 0)).sum = l.count A * c := by
  induction l with
  | nil => simp
  | cons x t ih =>
    simp only [List.map_cons, List.sum_cons, ih, List.count_cons]
    by_cases h : x = A
    · simp [h, Nat.add_mul, Nat.add_comm]
    · have hbe : (x == A) = false := beq_eq_false_iff_ne.mpr h
      simp [h, hbe]

/-- The multiplicity of the pair `(A, B)` among the generated gene-set pairs
factors through the two powerset multiplicities. -/
lemma count_pair_genePairs (l : List String) (A B : Finset String) :
    (genePairs l).count (A, B) =
      (powerset l).count A * (powerset (l.filter (fun x => x ∉ A))).count B := by
  unfold genePairs
  rw [List.count_flatMap]
  have hmap : ∀ a ∈ powerset l,
      (List.count (A, B) ∘ fun a =>
        (powerset (l.filter (fun x => x ∉ a))).map (fun b => (a, b))) a =
      (fun a => if a = A then (powerset (l.filter (fun x => x ∉ A))).count B
        else 0) a := by
    intro a _
    simp only [Function.comp]
    rw [List.count_eq_countP, List.countP_map]
    by_cases hA : a = A
    · subst hA
      rw [if_pos rfl, List.count_eq_countP]
      apply List.countP_congr
      intro b _
      simp [Function.comp, beq_iff_eq, Prod.ext_iff]
    · rw [if_neg hA]
      apply List.countP_eq_zero.mpr
      intro b _
      simp only [Function.comp, beq_iff_eq, Prod.ext_iff]
      intro hco
      exact hA hco.1
  rw [List.map_congr_left hmap, sum_map_ite_count]

/-- `names - one_gene` as computed by the inner loop. -/
lemma toFinset_filter_not_mem (l : List String) (A : Finset String) :
    (l.filter (fun x => x ∉ A)).toFinset = l.toFinset \ A := by
  ext x
  simp [List.mem_toFinset, List.mem_filter, Finset.mem_sdiff]

/-- C3: over a duplicate-free list of names, the nested enumeration produces
every pair of a one-gene subset and a disjoint two-gene subset exactly once,
and never produces a pair whose components overlap. -/
theorem genePairs_each_partition_once (l : List String) (hl : l.Nodup)
    (A B : Finset String) :
    (A ⊆ l.toFinset → B ⊆ l.toFinset → Disjoint A B →
      (genePairs l).count (A, B) = 1) ∧
    (¬ Disjoint A B → (genePairs l).count (A, B) = 0) := by
  rw [count_pair_genePairs l A B, count_powerset l hl A,
    count_powerset _ (hl.filter _) B, toFinset_filter_not_mem l A]
  constructor
  · intro hA hB hdisj
    rw [if_pos hA, if_pos (Finset.subset_sdiff.mpr ⟨hB, hdisj.symm⟩)]
  · intro hnd
    have hBnot : ¬ B ⊆ l.toFinset \ A := by
      intro hsub
      exact hnd ((Finset.subset_sdiff.mp hsub).2).symm
    rw [if_neg hBnot]
    simp

/-- Witness for C3 on the two-person name list. -/
theorem genePairs_each_partition_once_witness :
    ((["A", "B"] : List String).Nodup ∧ ({"A"} : Finset String) ⊆
        (["A", "B"] : List String).toFinset ∧
      ({"B"} : Finset String) ⊆ (["A", "B"] : List String).toFinset ∧
      Disjoint ({"A"} : Finset String) ({"B"} : Finset String)) ∧
      (genePairs ["A", "B"]).count ({"A"}, {"B"}) = 1 :=
  ⟨⟨by decide, by decide, by decide, by decide⟩,
    (genePairs_each_partition_once ["A", "B"] (by decide) {"A"} {"B"}).1
      (by decide) (by decide) (by decide)⟩

end Heredity
